import Mathlib

/-!
# Verification of the frogbot link-embed pipeline (src/embeds.rs)

Shallow embedding of the embed module of frogbot:

* `get_urls_from_message` — URL extraction from message text with the
  localhost / 127.0.0.1 filter.  The URL regular expression

  `(?:(?:https?)://)(?:\S+(?::\S*)?@|\d\x7b1,3\x7d(?:\.\d\x7b1,3\x7d)\x7b3\x7d|`
  `(?:(?:[a-z\d\x7b00a1\x7d-\x7bffff\x7d]+-?)*[...]+)(?:\.(...))*`
  `(?:\.[a-z...]\x7b2,6\x7d))(?::\d+)?(?:[^\s]*)?`

  is embedded by structural recursion on the pattern: every sub-pattern is a
  function from the remaining input to the list of numbers of consumed
  characters, in the preference order of leftmost-first (Perl-like) matching
  as implemented by the Rust regex crate: alternatives in written order,
  greedy repetition preferring longer matches.  The overall match length is
  the head of the preference list.  `find_iter` is the scan that tries each
  position left to right and resumes after the end of every match.

* `parse_metadata` — metadata scraping.  `Html::parse_document` and the CSS
  selection come from the external scraper crate; the embedding takes the
  outcome of the two selections (`HtmlDoc`) as input.  The call
  `desc.value().attr("content").unwrap()` panics when the selected meta
  element has no `content` attribute; a panic is modelled as `Except.error`.

* `embed_handler` — the orchestrator, as a pure function from the incoming
  event and an oracle for the external world (fetch outcomes, dispatch
  success) to the trace of observable actions (HTTP fetches, room replies,
  stage-identifying log lines).  Timing log lines (`Instant::elapsed`) are
  not representable and are omitted from the trace.

Character classes are over `Char.toNat` (the Unicode scalar value).  `\s`
is the Unicode White_Space class used by the Rust regex crate.  `\d` is
embedded as the ASCII digits (the full Unicode Decimal_Number class of the
regex crate is not reproduced; no claim depends on non-ASCII digits).
Rust `str::to_lowercase` is embedded as ASCII lowercasing via
`Char.toLower` (no claim depends on non-ASCII case folding).
-/

namespace Frogbot

/-- Unicode White_Space, the class matched by `\s` in the Rust regex crate. -/
def rustIsSpace (c : Char) : Bool :=
  decide (c.toNat = 0x09 ∨ c.toNat = 0x0A ∨ c.toNat = 0x0B ∨ c.toNat = 0x0C ∨
    c.toNat = 0x0D ∨ c.toNat = 0x20 ∨ c.toNat = 0x85 ∨ c.toNat = 0xA0 ∨
    c.toNat = 0x1680 ∨ (0x2000 ≤ c.toNat ∧ c.toNat ≤ 0x200A) ∨
    c.toNat = 0x2028 ∨ c.toNat = 0x2029 ∨ c.toNat = 0x202F ∨
    c.toNat = 0x205F ∨ c.toNat = 0x3000)

/-- The class `\S` (and equally `[^\s]`) of the pattern. -/
def nonWs (c : Char) : Bool := !rustIsSpace c

/-- The class `\d` (ASCII digits, see header). -/
def isDigitChar (c : Char) : Bool := decide (0x30 ≤ c.toNat ∧ c.toNat ≤ 0x39)

/-- The host-label class `[a-z\d\x7b00a1\x7d-\x7bffff\x7d]` of the pattern. -/
def isHostChar (c : Char) : Bool :=
  decide ((0x61 ≤ c.toNat ∧ c.toNat ≤ 0x7A) ∨ (0x30 ≤ c.toNat ∧ c.toNat ≤ 0x39) ∨
    (0xA1 ≤ c.toNat ∧ c.toNat ≤ 0xFFFF))

/-- The top-level-label class `[a-z\x7b00a1\x7d-\x7bffff\x7d]` of the pattern. -/
def isTldChar (c : Char) : Bool :=
  decide ((0x61 ≤ c.toNat ∧ c.toNat ≤ 0x7A) ∨ (0xA1 ≤ c.toNat ∧ c.toNat ≤ 0xFFFF))

/-- Number of leading characters of `cs` satisfying `p` (the greedy run). -/
def takeRun (p : Char → Bool) : List Char → Nat
  | [] => 0
  | c :: cs => if p c then takeRun p cs + 1 else 0

/-- `hi, hi-1, ..., lo` — the consumed-length preferences of a greedy
    counted repetition of a character class. Empty when `hi < lo`. -/
def rangeDesc (hi lo : Nat) : List Nat :=
  (List.range (hi + 1 - lo)).map (fun k => hi - k)

/-- Preferences of `class+`: greedy, longest first. -/
def plusLens (p : Char → Bool) (cs : List Char) : List Nat :=
  rangeDesc (takeRun p cs) 1

/-- Preferences of `class*`: greedy, longest first, down to zero. -/
def starClassLens (p : Char → Bool) (cs : List Char) : List Nat :=
  rangeDesc (takeRun p cs) 0

/-- Sequencing of two sub-patterns: consumed lengths add, preference order
    is the backtracking (depth-first) order. -/
def seqLens (f g : List Char → List Nat) (cs : List Char) : List Nat :=
  (f cs).flatMap (fun a => (g (cs.drop a)).map (fun b => a + b))

/-- A single literal character of the pattern. -/
def charLit (a : Char) : List Char → List Nat
  | [] => []
  | c :: _ => if c = a then [1] else []

/-- Greedy `(...)*` over a sub-pattern, by fuel (every iteration of the
    source pattern consumes at least one character, so fuel equal to the
    input length is never exhausted; zero-width iterations are skipped as
    the regex crate does). -/
def starLens (f : List Char → List Nat) : Nat → List Char → List Nat
  | 0, _ => [0]
  | fuel + 1, cs =>
    ((f cs).filter (fun n => decide (0 < n))).flatMap
      (fun n => (starLens f fuel (cs.drop n)).map (fun b => n + b)) ++ [0]

/-- `(...)*` with the fuel fixed to the input length. -/
def starFn (f : List Char → List Nat) (cs : List Char) : List Nat :=
  starLens f cs.length cs

/-- `(?:(?:https?)://)`: greedy `s?` prefers the longer literal. -/
def prefixLens (cs : List Char) : List Nat :=
  (if ("https://".toList).isPrefixOf cs then [8] else []) ++
  (if ("http://".toList).isPrefixOf cs then [7] else [])

/-- `(?::\S*)?` — the optional userinfo password part. -/
def optColonLens (cs : List Char) : List Nat :=
  seqLens (charLit ':') (starClassLens nonWs) cs ++ [0]

/-- Host alternative 1, `\S+(?::\S*)?@` (userinfo form). -/
def alt1Lens (cs : List Char) : List Nat :=
  seqLens (plusLens nonWs) (seqLens optColonLens (charLit '@')) cs

/-- `\d\x7b1,3\x7d` — one to three digits, greedy. -/
def d13Lens (cs : List Char) : List Nat :=
  rangeDesc (min 3 (takeRun isDigitChar cs)) 1

/-- `\.\d\x7b1,3\x7d`. -/
def dotD13Lens : List Char → List Nat :=
  seqLens (charLit '.') d13Lens

/-- Host alternative 2, `\d\x7b1,3\x7d(?:\.\d\x7b1,3\x7d)\x7b3\x7d` (IPv4 form). -/
def alt2Lens (cs : List Char) : List Nat :=
  seqLens d13Lens (seqLens dotD13Lens (seqLens dotD13Lens dotD13Lens)) cs

/-- `-?` inside a label. -/
def optHyphenLens (cs : List Char) : List Nat :=
  charLit '-' cs ++ [0]

/-- One iteration `(?:[L]+-?)` of the label pattern. -/
def lseqLens : List Char → List Nat :=
  seqLens (plusLens isHostChar) optHyphenLens

/-- A domain label `(?:(?:[L]+-?)*[L]+)`. -/
def labelLens : List Char → List Nat :=
  seqLens (starFn lseqLens) (plusLens isHostChar)

/-- `\.(?:[L]+-?)*[L]+` — a further dot-separated label. -/
def dotLabelLens : List Char → List Nat :=
  seqLens (charLit '.') labelLens

/-- `\.[a-z\x7b00a1\x7d-\x7bffff\x7d]\x7b2,6\x7d` — the top-level label. -/
def tldLens : List Char → List Nat :=
  seqLens (charLit '.')
    (fun cs => rangeDesc (min 6 (takeRun isTldChar cs)) 2)

/-- Host alternative 3 — domain with at least one dot and a 2–6 letter
    top-level label. -/
def alt3Lens (cs : List Char) : List Nat :=
  seqLens labelLens (seqLens (starFn dotLabelLens) tldLens) cs

/-- The host alternation of the pattern, in written order. -/
def hostLens (cs : List Char) : List Nat :=
  alt1Lens cs ++ alt2Lens cs ++ alt3Lens cs

/-- `(?::\d+)?` — the optional port. -/
def optPortLens (cs : List Char) : List Nat :=
  seqLens (charLit ':') (plusLens isDigitChar) cs ++ [0]

/-- `(?:[^\s]*)?` — the trailing path/query/fragment run. -/
def trailLens (cs : List Char) : List Nat :=
  starClassLens nonWs cs ++ [0]

/-- Consumed-length preferences of the whole URL pattern. -/
def matchLens (cs : List Char) : List Nat :=
  seqLens prefixLens (seqLens hostLens (seqLens optPortLens trailLens)) cs

/-- Length of the leftmost-first match of the pattern at the head of `cs`,
    if the pattern matches there. -/
def matchAt (cs : List Char) : Option Nat :=
  (matchLens cs).head?

/-- `RE.find_iter`: scan left to right, emit each leftmost match and resume
    after its end.  Fuel decreases every step; fuel = input length is enough
    because every step consumes at least one character. -/
def findIterAux (fuel : Nat) (cs : List Char) : List (List Char) :=
  match fuel, cs with
  | 0, _ => []
  | _, [] => []
  | fuel + 1, c :: rest =>
    match matchAt (c :: rest) with
    | some n => (c :: rest).take n :: findIterAux fuel ((c :: rest).drop n)
    | none => findIterAux fuel rest

/-- All pattern matches of a message, in order of first appearance
    (`RE.find_iter` collected to a list of matched substrings). -/
def findMatches (message : List Char) : List (List Char) :=
  findIterAux message.length message

/-- Rust `str::contains(pat)` — substring containment. -/
def containsSub (pat : List Char) : List Char → Bool
  | [] => pat.isEmpty
  | c :: rest => pat.isPrefixOf (c :: rest) || containsSub pat rest

/-- The filter of the source loop:
    `regex_match.as_str().to_lowercase().contains("localhost")
     || regex_match.as_str().to_lowercase().contains("127.0.0.1")`. -/
def isSuspectUrl (u : List Char) : Bool :=
  containsSub ("localhost".toList) (u.map Char.toLower) ||
  containsSub ("127.0.0.1".toList) (u.map Char.toLower)

/-- Embedding of `get_urls_from_message` (src/embeds.rs:65-94): if the
    pattern matches anywhere, push every match that is not a suspected
    localhost/loopback URL, in iteration order; otherwise return nothing. -/
def get_urls_from_message (message : List Char) : List (List Char) :=
  if (findMatches message).isEmpty then []
  else (findMatches message).filter (fun u => !isSuspectUrl u)

/-- An embed in the chat (src/embeds.rs:20-25). -/
structure Embed where
  title : List Char
  description : List Char
  deriving Repr, DecidableEq

/-- `Embed::new` (src/embeds.rs:29-31). -/
def Embed.new (title description : List Char) : Embed :=
  { title := title, description := description }

/-- The first `meta[name="description"]` element selected from the
    document: its `content` attribute value, when the attribute exists
    (`scraper` returns an `Option` from `attr`). -/
structure MetaElement where
  contentAttr : Option (List Char)
  deriving Repr, DecidableEq

/-- Outcome of `Html::parse_document` plus the two CSS selections of
    `parse_metadata` (external scraper crate, total on arbitrary input:
    malformed markup just yields fewer or no matches).
    `firstTitleText` is the concatenated text of the first `title` element
    (`title.text().collect()`), when one was selected. -/
structure HtmlDoc where
  firstTitleText : Option (List Char)
  firstDescMeta : Option MetaElement
  deriving Repr, DecidableEq

/-- Embedding of `parse_metadata` (src/embeds.rs:35-62).  The selection
    outcomes are the input; a Rust panic is `Except.error`.  The source:
    defaults both strings to empty, returns `None` when neither element was
    found, fills the title from the title text, and fills the description
    from `desc.value().attr("content").unwrap()` — a panic when the
    selected meta element has no `content` attribute. -/
def parse_metadata (doc : HtmlDoc) : Except (List Char) (Option Embed) :=
  let title := doc.firstTitleText
  let desc := doc.firstDescMeta
  match title, desc with
  | none, none => Except.ok none
  | _, _ =>
    let meta_title : List Char :=
      match title with
      | some t => t
      | none => []
    match desc with
    | some el =>
      (match el.contentAttr with
       | some v => Except.ok (some (Embed.new meta_title v))
       | none => Except.error ("called Option::unwrap() on a None value".toList))
    | none => Except.ok (some (Embed.new meta_title []))

/-- Outcome of the two-stage page fetch for one URL:
    `reqwest_client.get(url).send().await` failing is `unreachable`;
    `req.text().await` failing is `bodyDecodeFailed`; otherwise the body is
    fetched and (composing the external HTML parse) yields a document. -/
inductive FetchResult where
  | unreachable : FetchResult
  | bodyDecodeFailed : FetchResult
  | body : HtmlDoc → FetchResult
  deriving Repr, DecidableEq

/-- The stage-identifying `warn!` lines of the per-URL loop. -/
inductive LogMsg where
  | failedFetch : List Char → LogMsg
  | failedDecode : List Char → LogMsg
  | sendingEmbed : List Char → LogMsg
  | sendingNoMetadata : List Char → LogMsg
  | failedSend : List Char → LogMsg
  deriving Repr, DecidableEq

/-- Observable actions of the handler, in program order: an HTTP GET, a
    room reply dispatch (`RoomMessageEventContent::text_html(plain, html)`
    made a reply to the original event and sent), or a log line. -/
inductive Action where
  | fetch : List Char → Action
  | sendReply : List Char → List Char → Action
  | log : LogMsg → Action
  deriving Repr, DecidableEq

/-- Whether an action is a reply dispatch. -/
def isSendAction : Action → Bool
  | Action.sendReply _ _ => true
  | _ => false

/-- `event.content.msgtype`: either plain text with its body, or any other
    message type (`MessageType::Text` versus the rest). -/
inductive MessageType where
  | text : List Char → MessageType
  | other : MessageType
  deriving Repr, DecidableEq

/-- `event.content`: the message type and whether `relates_to` is
    `Some(Relation::Reply)`. -/
structure MessageContent where
  msgtype : MessageType
  isReplyRelation : Bool
  deriving Repr, DecidableEq

/-- The incoming `OriginalSyncRoomMessageEvent`, with identities as numbers. -/
structure RoomMessageEvent where
  sender : Nat
  content : MessageContent
  deriving Repr, DecidableEq

/-- Oracle for the external collaborators of one handler invocation:
    the room join state, the bot identity (`client.user_id()`), the fetch
    outcome per URL, and whether `room.send` succeeds for the (at most one)
    reply of each URL. -/
structure World where
  roomJoined : Bool
  clientUserId : Nat
  fetch : List Char → FetchResult
  sendOk : List Char → Bool

/-- The HTML body of a rich reply: the `format!` literal of
    src/embeds.rs:140-144, with its exact line breaks and indentation. -/
def embedHtml (title description : List Char) : List Char :=
  ("<blockquote>\n                                <h4>".toList) ++ title ++
  ("</h4>\n                                <p>".toList) ++ description ++
  ("</p>\n                                </blockquote>".toList)

/-- Plain body of the fallback reply (src/embeds.rs:158). -/
def noMetaPlain : List Char := "Couldn\x27t parse metadata for URL".toList

/-- HTML body of the fallback reply (src/embeds.rs:159). -/
def noMetaHtml : List Char :=
  "<blockquote><h5>Couldn\x27t parse metadata for URL</h5></blockquote>".toList

/-- One iteration of the per-URL loop (src/embeds.rs:127-175): fetch, then
    decode, then parse; on metadata build and send the rich reply, else
    build and send the generic fallback; log every failure.  A parse panic
    propagates as `Except.error`. -/
def handleUrl (w : World) (url : List Char) : Except (List Char) (List Action) :=
  match w.fetch url with
  | FetchResult.unreachable =>
    Except.ok [Action.fetch url, Action.log (LogMsg.failedFetch url)]
  | FetchResult.bodyDecodeFailed =>
    Except.ok [Action.fetch url, Action.log (LogMsg.failedDecode url)]
  | FetchResult.body doc =>
    match parse_metadata doc with
    | Except.error e => Except.error e
    | Except.ok metadata =>
      match metadata with
      | some embed =>
        Except.ok ([Action.fetch url, Action.log (LogMsg.sendingEmbed url),
          Action.sendReply embed.title (embedHtml embed.title embed.description)] ++
          (if w.sendOk url then [] else [Action.log (LogMsg.failedSend url)]))
      | none =>
        Except.ok ([Action.fetch url, Action.log (LogMsg.sendingNoMetadata url),
          Action.sendReply noMetaPlain noMetaHtml] ++
          (if w.sendOk url then [] else [Action.log (LogMsg.failedSend url)]))

/-- The whole `for url in urls` loop, in order; a panic aborts the loop. -/
def handleUrls (w : World) : List (List Char) → Except (List Char) (List Action)
  | [] => Except.ok []
  | url :: rest =>
    match handleUrl w url with
    | Except.error e => Except.error e
    | Except.ok acts =>
      match handleUrls w rest with
      | Except.error e => Except.error e
      | Except.ok restActs => Except.ok (acts ++ restActs)

/-- Embedding of `embed_handler` (src/embeds.rs:97-177): nothing happens
    unless the room is joined; then the eligibility gates in source order —
    sender equals the bot identity, reply relation, non-text content — each
    return with no action; then the URL extraction and the per-URL loop. -/
def embed_handler (w : World) (event : RoomMessageEvent) :
    Except (List Char) (List Action) :=
  if w.roomJoined then
    if event.sender = w.clientUserId then Except.ok []
    else if event.content.isReplyRelation then Except.ok []
    else
      match event.content.msgtype with
      | MessageType.other => Except.ok []
      | MessageType.text body => handleUrls w (get_urls_from_message body)
  else Except.ok []

/-- Characters the URL pattern can consume: either non-whitespace, or in
    the Unicode range `00A1`–`FFFF` that the host classes admit (which
    overlaps Unicode whitespace such as U+2002). -/
def okChar (c : Char) : Bool := !rustIsSpace c || decide (0xA1 ≤ c.toNat)

/-- ASCII whitespace (tab, line feed, vertical tab, form feed, carriage
    return, space). -/
def asciiWs (c : Char) : Bool :=
  decide (c.toNat = 0x09 ∨ c.toNat = 0x0A ∨ c.toNat = 0x0B ∨ c.toNat = 0x0C ∨
    c.toNat = 0x0D ∨ c.toNat = 0x20)

lemma okChar_of_nonWs {c : Char} (h : nonWs c = true) : okChar c = true := by
  unfold nonWs at h
  unfold okChar
  rw [h]
  rfl

lemma okChar_of_digit {c : Char} (h : isDigitChar c = true) : okChar c = true := by
  simp only [isDigitChar, decide_eq_true_eq] at h
  simp only [okChar, rustIsSpace, Bool.or_eq_true, Bool.not_eq_true',
    decide_eq_true_eq, decide_eq_false_iff_not]
  omega

lemma okChar_of_host {c : Char} (h : isHostChar c = true) : okChar c = true := by
  simp only [isHostChar, decide_eq_true_eq] at h
  simp only [okChar, rustIsSpace, Bool.or_eq_true, Bool.not_eq_true',
    decide_eq_true_eq, decide_eq_false_iff_not]
  omega

lemma okChar_of_tld {c : Char} (h : isTldChar c = true) : okChar c = true := by
  simp only [isTldChar, decide_eq_true_eq] at h
  simp only [okChar, rustIsSpace, Bool.or_eq_true, Bool.not_eq_true',
    decide_eq_true_eq, decide_eq_false_iff_not]
  omega

lemma asciiWs_false_of_okChar {c : Char} (h : okChar c = true) :
    asciiWs c = false := by
  simp only [okChar, rustIsSpace, Bool.or_eq_true, Bool.not_eq_true',
    decide_eq_true_eq, decide_eq_false_iff_not] at h
  simp only [asciiWs, decide_eq_false_iff_not]
  omega

lemma mem_rangeDesc_le {hi lo n : Nat} (h : n ∈ rangeDesc hi lo) : n ≤ hi := by
  simp only [rangeDesc, List.mem_map, List.mem_range] at h
  obtain ⟨k, -, rfl⟩ := h
  omega

lemma takeRun_sound (p : Char → Bool) :
    ∀ (cs : List Char) (n : Nat), n ≤ takeRun p cs →
      ∀ c ∈ cs.take n, p c = true := by
  intro cs
  induction cs with
  | nil => intro n _ c hc; simp at hc
  | cons d ds ih =>
    intro n hn c hc
    cases n with
    | zero => simp at hc
    | succ m =>
      unfold takeRun at hn
      by_cases hd : p d = true
      · rw [if_pos hd] at hn
        rw [List.take_succ_cons] at hc
        rcases List.mem_cons.mp hc with rfl | hc'
        · exact hd
        · exact ih m (by omega) c hc'
      · rw [if_neg hd] at hn
        omega

/-- A sub-pattern only ever consumes characters satisfying `P`. -/
def ConsumesOk (P : Char → Bool) (f : List Char → List Nat) : Prop :=
  ∀ cs n, n ∈ f cs → ∀ c ∈ cs.take n, P c = true

lemma consumesOk_of_bounded {P Q : Char → Bool} {f : List Char → List Nat}
    (hPQ : ∀ c, Q c = true → P c = true)
    (hf : ∀ cs n, n ∈ f cs → n ≤ takeRun Q cs) : ConsumesOk P f := by
  intro cs n hn c hc
  exact hPQ c (takeRun_sound Q cs n (hf cs n hn) c hc)

lemma mem_seqLens {f g : List Char → List Nat} {cs : List Char} {n : Nat} :
    n ∈ seqLens f g cs ↔
      ∃ a b, a ∈ f cs ∧ b ∈ g (cs.drop a) ∧ n = a + b := by
  simp only [seqLens, List.mem_flatMap, List.mem_map]
  constructor
  · rintro ⟨a, ha, b, hb, rfl⟩
    exact ⟨a, b, ha, hb, rfl⟩
  · rintro ⟨a, b, ha, hb, rfl⟩
    exact ⟨a, ha, b, hb, rfl⟩

lemma consumesOk_seqLens {P : Char → Bool} {f g : List Char → List Nat}
    (hf : ConsumesOk P f) (hg : ConsumesOk P g) :
    ConsumesOk P (seqLens f g) := by
  intro cs n hn c hc
  obtain ⟨a, b, ha, hb, rfl⟩ := mem_seqLens.mp hn
  rw [List.take_add] at hc
  rcases List.mem_append.mp hc with h | h
  · exact hf cs a ha c h
  · exact hg (cs.drop a) b hb c h

lemma consumesOk_append {P : Char → Bool} {f g : List Char → List Nat}
    (hf : ConsumesOk P f) (hg : ConsumesOk P g) :
    ConsumesOk P (fun cs => f cs ++ g cs) := by
  intro cs n hn c hc
  rcases List.mem_append.mp hn with h | h
  · exact hf cs n h c hc
  · exact hg cs n h c hc

lemma consumesOk_nil {P : Char → Bool} : ConsumesOk P (fun _ => ([] : List Nat)) := by
  intro cs n hn
  simp at hn

lemma consumesOk_zero {P : Char → Bool} : ConsumesOk P (fun _ => [0]) := by
  intro cs n hn c hc
  simp only [List.mem_singleton] at hn
  subst hn
  simp at hc

lemma consumesOk_charLit {P : Char → Bool} {a : Char} (h : P a = true) :
    ConsumesOk P (charLit a) := by
  intro cs n hn c hc
  cases cs with
  | nil => simp [charLit] at hn
  | cons d ds =>
    simp only [charLit] at hn
    by_cases hd : d = a
    · rw [if_pos hd] at hn
      simp only [List.mem_singleton] at hn
      subst hn
      simp only [List.take_succ_cons, List.take_zero] at hc
      rcases List.mem_cons.mp hc with rfl | hc'
      · rw [hd]; exact h
      · simp at hc'
    · rw [if_neg hd] at hn
      simp at hn

lemma consumesOk_starLens {P : Char → Bool} {f : List Char → List Nat}
    (hf : ConsumesOk P f) :
    ∀ fuel, ConsumesOk P (starLens f fuel) := by
  intro fuel
  induction fuel with
  | zero => exact consumesOk_zero
  | succ m ih =>
    intro cs n hn c hc
    unfold starLens at hn
    rcases List.mem_append.mp hn with h | h
    · simp only [List.mem_flatMap, List.mem_map, List.mem_filter] at h
      obtain ⟨a, ⟨ha, -⟩, b, hb, rfl⟩ := h
      rw [List.take_add] at hc
      rcases List.mem_append.mp hc with h' | h'
      · exact hf cs a ha c h'
      · exact ih (cs.drop a) b hb c h'
    · simp only [List.mem_singleton] at h
      subst h
      simp at hc

lemma consumesOk_starFn {P : Char → Bool} {f : List Char → List Nat}
    (hf : ConsumesOk P f) : ConsumesOk P (starFn f) := by
  intro cs n hn
  exact consumesOk_starLens hf cs.length cs n hn

lemma consumesOk_plusLens {P Q : Char → Bool} (h : ∀ c, Q c = true → P c = true) :
    ConsumesOk P (plusLens Q) := by
  refine consumesOk_of_bounded h ?_
  intro cs n hn
  exact mem_rangeDesc_le hn

lemma consumesOk_starClassLens {P Q : Char → Bool}
    (h : ∀ c, Q c = true → P c = true) :
    ConsumesOk P (starClassLens Q) := by
  refine consumesOk_of_bounded h ?_
  intro cs n hn
  exact mem_rangeDesc_le hn

lemma consumesOk_optColonLens : ConsumesOk okChar optColonLens :=
  consumesOk_append
    (consumesOk_seqLens (consumesOk_charLit (by decide))
      (consumesOk_starClassLens (fun _ => okChar_of_nonWs)))
    consumesOk_zero

lemma consumesOk_alt1Lens : ConsumesOk okChar alt1Lens :=
  consumesOk_seqLens (consumesOk_plusLens (fun _ => okChar_of_nonWs))
    (consumesOk_seqLens consumesOk_optColonLens (consumesOk_charLit (by decide)))

lemma consumesOk_d13Lens : ConsumesOk okChar d13Lens := by
  have hb : ∀ cs n, n ∈ d13Lens cs → n ≤ takeRun isDigitChar cs := by
    intro cs n hn
    have := mem_rangeDesc_le hn
    omega
  exact consumesOk_of_bounded (fun _ => okChar_of_digit) hb

lemma consumesOk_dotD13Lens : ConsumesOk okChar dotD13Lens :=
  consumesOk_seqLens (consumesOk_charLit (by decide)) consumesOk_d13Lens

lemma consumesOk_alt2Lens : ConsumesOk okChar alt2Lens :=
  consumesOk_seqLens consumesOk_d13Lens
    (consumesOk_seqLens consumesOk_dotD13Lens
      (consumesOk_seqLens consumesOk_dotD13Lens consumesOk_dotD13Lens))

lemma consumesOk_optHyphenLens : ConsumesOk okChar optHyphenLens :=
  consumesOk_append (consumesOk_charLit (by decide)) consumesOk_zero

lemma consumesOk_lseqLens : ConsumesOk okChar lseqLens :=
  consumesOk_seqLens (consumesOk_plusLens (fun _ => okChar_of_host))
    consumesOk_optHyphenLens

lemma consumesOk_labelLens : ConsumesOk okChar labelLens :=
  consumesOk_seqLens (consumesOk_starFn consumesOk_lseqLens)
    (consumesOk_plusLens (fun _ => okChar_of_host))

lemma consumesOk_dotLabelLens : ConsumesOk okChar dotLabelLens :=
  consumesOk_seqLens (consumesOk_charLit (by decide)) consumesOk_labelLens

lemma consumesOk_tldLens : ConsumesOk okChar tldLens := by
  have hb : ∀ cs n, n ∈ rangeDesc (min 6 (takeRun isTldChar cs)) 2 →
      n ≤ takeRun isTldChar cs := by
    intro cs n hn
    have := mem_rangeDesc_le hn
    omega
  exact consumesOk_seqLens (consumesOk_charLit (by decide))
    (consumesOk_of_bounded (fun _ => okChar_of_tld) hb)

lemma consumesOk_alt3Lens : ConsumesOk okChar alt3Lens :=
  consumesOk_seqLens consumesOk_labelLens
    (consumesOk_seqLens (consumesOk_starFn consumesOk_dotLabelLens)
      consumesOk_tldLens)

lemma consumesOk_hostLens : ConsumesOk okChar hostLens := by
  intro cs n hn c hc
  unfold hostLens at hn
  rcases List.mem_append.mp hn with h | h
  · rcases List.mem_append.mp h with h' | h'
    · exact consumesOk_alt1Lens cs n h' c hc
    · exact consumesOk_alt2Lens cs n h' c hc
  · exact consumesOk_alt3Lens cs n h c hc

lemma consumesOk_optPortLens : ConsumesOk okChar optPortLens :=
  consumesOk_append
    (consumesOk_seqLens (consumesOk_charLit (by decide))
      (consumesOk_plusLens (fun _ => okChar_of_digit)))
    consumesOk_zero

lemma consumesOk_trailLens : ConsumesOk okChar trailLens :=
  consumesOk_append (consumesOk_starClassLens (fun _ => okChar_of_nonWs))
    consumesOk_zero

lemma consumesOk_prefixLens : ConsumesOk okChar prefixLens := by
  have h8 : ∀ c ∈ "https://".toList, okChar c = true := by decide
  have h7 : ∀ c ∈ "http://".toList, okChar c = true := by decide
  intro cs n hn c hc
  unfold prefixLens at hn
  rcases List.mem_append.mp hn with h | h
  · by_cases hp : ("https://".toList).isPrefixOf cs
    · rw [if_pos hp] at h
      simp only [List.mem_singleton] at h
      subst h
      have hpre : "https://".toList <+: cs := List.isPrefixOf_iff_prefix.mp hp
      have : "https://".toList = cs.take 8 := List.prefix_iff_eq_take.mp hpre
      rw [← this] at hc
      exact h8 c hc
    · rw [if_neg hp] at h
      simp at h
  · by_cases hp : ("http://".toList).isPrefixOf cs
    · rw [if_pos hp] at h
      simp only [List.mem_singleton] at h
      subst h
      have hpre : "http://".toList <+: cs := List.isPrefixOf_iff_prefix.mp hp
      have : "http://".toList = cs.take 7 := List.prefix_iff_eq_take.mp hpre
      rw [← this] at hc
      exact h7 c hc
    · rw [if_neg hp] at h
      simp at h

lemma consumesOk_matchLens : ConsumesOk okChar matchLens :=
  consumesOk_seqLens consumesOk_prefixLens
    (consumesOk_seqLens consumesOk_hostLens
      (consumesOk_seqLens consumesOk_optPortLens consumesOk_trailLens))

lemma matchAt_mem {cs : List Char} {n : Nat} (h : matchAt cs = some n) :
    n ∈ matchLens cs := by
  unfold matchAt at h
  exact List.mem_of_mem_head? (Option.mem_def.mpr h)

lemma mem_prefixLens {cs : List Char} {p : Nat} (h : p ∈ prefixLens cs) :
    ("https://".toList <+: cs ∧ p = 8) ∨ ("http://".toList <+: cs ∧ p = 7) := by
  unfold prefixLens at h
  rcases List.mem_append.mp h with h' | h'
  · by_cases hp : ("https://".toList).isPrefixOf cs
    · rw [if_pos hp] at h'
      simp only [List.mem_singleton] at h'
      exact Or.inl ⟨List.isPrefixOf_iff_prefix.mp hp, h'⟩
    · rw [if_neg hp] at h'
      simp at h'
  · by_cases hp : ("http://".toList).isPrefixOf cs
    · rw [if_pos hp] at h'
      simp only [List.mem_singleton] at h'
      exact Or.inr ⟨List.isPrefixOf_iff_prefix.mp hp, h'⟩
    · rw [if_neg hp] at h'
      simp at h'

lemma matchAt_scheme {cs : List Char} {n : Nat} (h : matchAt cs = some n) :
    ("http://".toList <+: cs ∧ 7 ≤ n) ∨ ("https://".toList <+: cs ∧ 8 ≤ n) := by
  have hm := matchAt_mem h
  obtain ⟨a, b, ha, hb, rfl⟩ := mem_seqLens.mp hm
  rcases mem_prefixLens ha with ⟨hp, rfl⟩ | ⟨hp, rfl⟩
  · exact Or.inr ⟨hp, by omega⟩
  · exact Or.inl ⟨hp, by omega⟩

lemma matchAt_chars {cs : List Char} {n : Nat} (h : matchAt cs = some n) :
    ∀ c ∈ cs.take n, okChar c = true :=
  consumesOk_matchLens cs n (matchAt_mem h)

lemma mem_findIterAux {u : List Char} :
    ∀ {fuel : Nat} {cs : List Char}, u ∈ findIterAux fuel cs →
      ∃ cs' n, cs' <:+ cs ∧ matchAt cs' = some n ∧ u = cs'.take n := by
  intro fuel
  induction fuel with
  | zero => intro cs h; simp [findIterAux] at h
  | succ m ih =>
    intro cs h
    cases cs with
    | nil => simp [findIterAux] at h
    | cons c rest =>
      simp only [findIterAux] at h
      cases hm : matchAt (c :: rest) with
      | some n =>
        rw [hm] at h
        rcases List.mem_cons.mp h with rfl | h'
        · exact ⟨c :: rest, n, List.suffix_refl _, hm, rfl⟩
        · obtain ⟨cs', n', hs, hm', hu⟩ := ih h'
          exact ⟨cs', n', hs.trans (List.drop_suffix _ _), hm', hu⟩
      | none =>
        rw [hm] at h
        obtain ⟨cs', n', hs, hm', hu⟩ := ih h
        exact ⟨cs', n', hs.trans (List.suffix_cons c rest), hm', hu⟩

lemma mem_findMatches {msg u : List Char} (h : u ∈ findMatches msg) :
    ∃ cs' n, cs' <:+ msg ∧ matchAt cs' = some n ∧ u = cs'.take n :=
  mem_findIterAux h

lemma mem_get_urls {msg u : List Char} (h : u ∈ get_urls_from_message msg) :
    u ∈ findMatches msg ∧ isSuspectUrl u = false := by
  unfold get_urls_from_message at h
  by_cases he : (findMatches msg).isEmpty
  · rw [if_pos he] at h
    simp at h
  · rw [if_neg he] at h
    have := List.mem_filter.mp h
    exact ⟨this.1, by simpa using this.2⟩

lemma take_prefix_self (n : Nat) (l : List Char) : l.take n <+: l :=
  List.take_prefix n l

lemma prefix_of_take {pre cs' : List Char} {n : Nat}
    (hp : pre <+: cs') (hn : pre.length ≤ n) : pre <+: cs'.take n := by
  rw [List.prefix_iff_eq_take] at hp ⊢
  rw [List.take_take, Nat.min_eq_left hn]
  exact hp

/-- C1 — code bug.  The claim (with spec section 4.3) requires that
`parse_metadata` never crashes and that a matched description meta element
without a `content` attribute is surfaced as an explicit parser error
rather than a panic.  The source instead calls
`desc.value().attr("content").unwrap()`, which panics on exactly that
input.  This theorem evaluates the embedded code at the failing input (a
document whose first `meta[name="description"]` element has no `content`
attribute): the panic branch is reached. -/
theorem parse_metadata_unwrap_panics :
    parse_metadata { firstTitleText := none,
                     firstDescMeta := some { contentAttr := none } } =
      Except.error ("called Option::unwrap() on a None value".toList) := rfl

/-- C2 — for every incoming message event, if the sender equals the bot
identity, or the message is a reply to another message, or the body is not
plain text, then `embed_handler` performs no URL extraction, no fetch and
no reply: its action trace is empty.  The sender check is the first gate
of the source, before any URL work. -/
theorem embed_handler_eligibility_gate (w : World) (event : RoomMessageEvent)
    (h : event.sender = w.clientUserId ∨ event.content.isReplyRelation = true ∨
      ∀ body, event.content.msgtype ≠ MessageType.text body) :
    embed_handler w event = Except.ok [] := by
  unfold embed_handler
  by_cases hj : w.roomJoined = true
  case neg => simp [hj]
  rw [if_pos hj]
  rcases h with h1 | h2 | h3
  · rw [if_pos h1]
  · by_cases h1 : event.sender = w.clientUserId
    · rw [if_pos h1]
    · rw [if_neg h1, if_pos h2]
  · by_cases h1 : event.sender = w.clientUserId
    · rw [if_pos h1]
    · rw [if_neg h1]
      by_cases h2 : event.content.isReplyRelation = true
      · rw [if_pos h2]
      · rw [if_neg h2]
        cases hm : event.content.msgtype with
        | other => rfl
        | text body => exact absurd hm (h3 body)

/-- Witness for C2: a message sent by the bot itself yields no actions. -/
theorem embed_handler_eligibility_gate_witness :
    embed_handler
      { roomJoined := true, clientUserId := 7,
        fetch := fun _ => FetchResult.unreachable, sendOk := fun _ => true }
      { sender := 7,
        content := { msgtype := MessageType.text ("http://a.bc".toList),
                     isReplyRelation := false } } =
      Except.ok [] :=
  embed_handler_eligibility_gate _ _ (Or.inl rfl)

/-- C3 — every pattern match whose text contains `localhost` or
`127.0.0.1` after lowercasing is excluded from the result of
`get_urls_from_message`: no returned URL contains either string
case-insensitively. -/
theorem get_urls_localhost_filter (msg u : List Char)
    (h : u ∈ get_urls_from_message msg) :
    containsSub ("localhost".toList) (u.map Char.toLower) = false ∧
    containsSub ("127.0.0.1".toList) (u.map Char.toLower) = false := by
  have hsus := (mem_get_urls h).2
  unfold isSuspectUrl at hsus
  exact Bool.or_eq_false_iff.mp hsus

/-- Witness for C3: a message holding a loopback URL and a normal URL; the
normal URL is returned and is localhost-free. -/
theorem get_urls_localhost_filter_witness :
    containsSub ("localhost".toList)
      (("http://a.bc".toList).map Char.toLower) = false ∧
    containsSub ("127.0.0.1".toList)
      (("http://a.bc".toList).map Char.toLower) = false :=
  get_urls_localhost_filter ("http://127.0.0.1 and http://a.bc".toList)
    ("http://a.bc".toList) (by decide)

/-- C4 — the four-row decision table of `parse_metadata`: both found gives
both texts; title only gives the title and an empty description;
description only gives an empty title and the content attribute value;
neither gives `None`.  (The description rows assume the matched meta
element carries its `content` attribute — without it the code panics,
see C1.) -/
theorem parse_metadata_decision_table (doc : HtmlDoc) :
    (∀ t el c, doc.firstTitleText = some t → doc.firstDescMeta = some el →
      el.contentAttr = some c →
      parse_metadata doc = Except.ok (some (Embed.new t c))) ∧
    (∀ t, doc.firstTitleText = some t → doc.firstDescMeta = none →
      parse_metadata doc = Except.ok (some (Embed.new t []))) ∧
    (∀ el c, doc.firstTitleText = none → doc.firstDescMeta = some el →
      el.contentAttr = some c →
      parse_metadata doc = Except.ok (some (Embed.new [] c))) ∧
    (doc.firstTitleText = none → doc.firstDescMeta = none →
      parse_metadata doc = Except.ok none) := by
  obtain ⟨ft, fd⟩ := doc
  refine ⟨?_, ?_, ?_, ?_⟩
  · rintro t ⟨ca⟩ c rfl rfl hc
    cases hc
    rfl
  · rintro t rfl rfl
    rfl
  · rintro ⟨ca⟩ c rfl rfl hc
    cases hc
    rfl
  · rintro rfl rfl
    rfl

/-- Witness for C4: both elements present with a content attribute. -/
theorem parse_metadata_decision_table_witness :
    parse_metadata { firstTitleText := some ("T".toList),
                     firstDescMeta := some { contentAttr := some ("D".toList) } } =
      Except.ok (some (Embed.new ("T".toList) ("D".toList))) :=
  (parse_metadata_decision_table _).1 _ _ _ rfl rfl rfl

/-- C5 — `get_urls_from_message` returns exactly the pattern matches in
order of first appearance with only the loopback filter applied (so no
deduplication); the empty message yields the empty sequence; a message
containing neither `http://` nor `https://` as a substring yields the
empty sequence. -/
theorem get_urls_order_and_empty (message : List Char) :
    get_urls_from_message message =
      (findMatches message).filter (fun u => !isSuspectUrl u) ∧
    get_urls_from_message [] = [] ∧
    (¬ ("http://".toList <:+: message) ∧ ¬ ("https://".toList <:+: message) →
      get_urls_from_message message = []) := by
  refine ⟨?_, rfl, ?_⟩
  · unfold get_urls_from_message
    by_cases he : (findMatches message).isEmpty = true
    · rw [if_pos he, List.isEmpty_iff.mp he]
      rfl
    · rw [if_neg he]
  · rintro ⟨h1, h2⟩
    apply List.eq_nil_iff_forall_not_mem.mpr
    intro u hu
    obtain ⟨cs', n, hs, hm, -⟩ := mem_findMatches (mem_get_urls hu).1
    rcases matchAt_scheme hm with ⟨hp, -⟩ | ⟨hp, -⟩
    · exact h1 (List.infix_iff_prefix_suffix.mpr ⟨cs', hp, hs⟩)
    · exact h2 (List.infix_iff_prefix_suffix.mpr ⟨cs', hp, hs⟩)

/-- Witness for C5: a message with no scheme substring yields nothing. -/
theorem get_urls_order_and_empty_witness :
    get_urls_from_message ("no links in this text".toList) = [] :=
  (get_urls_order_and_empty _).2.2 ⟨by decide, by decide⟩

/-- C6 — single consistent reply policy: for every URL whose fetch
succeeds, metadata `Some` dispatches exactly one rich reply built verbatim
from the title and description (an absent field appears as the empty
string, never omitted), and metadata `None` dispatches exactly one generic
fallback reply; no path drops a fetched URL silently. -/
theorem reply_policy (w : World) (url : List Char) (doc : HtmlDoc)
    (hf : w.fetch url = FetchResult.body doc) :
    (∀ e, parse_metadata doc = Except.ok (some e) →
      Except.map (List.filter isSendAction) (handleUrl w url) =
        Except.ok [Action.sendReply e.title (embedHtml e.title e.description)]) ∧
    (parse_metadata doc = Except.ok none →
      Except.map (List.filter isSendAction) (handleUrl w url) =
        Except.ok [Action.sendReply noMetaPlain noMetaHtml]) := by
  constructor
  · intro e hp
    by_cases hs : w.sendOk url = true <;>
      simp [handleUrl, hf, hp, hs, isSendAction, Except.map]
  · intro hp
    by_cases hs : w.sendOk url = true <;>
      simp [handleUrl, hf, hp, hs, isSendAction, Except.map]

/-- Witness for C6: fetched page whose document has a description but no
title — the reply carries the empty title and the description. -/
theorem reply_policy_witness :
    Except.map (List.filter isSendAction)
      (handleUrl
        { roomJoined := true, clientUserId := 0,
          fetch := fun _ => FetchResult.body
            { firstTitleText := none,
              firstDescMeta := some { contentAttr := some ("D".toList) } },
          sendOk := fun _ => true }
        ("http://a.bc".toList)) =
      Except.ok [Action.sendReply (Embed.new [] ("D".toList)).title
        (embedHtml (Embed.new [] ("D".toList)).title
          (Embed.new [] ("D".toList)).description)] :=
  (reply_policy _ ("http://a.bc".toList)
    { firstTitleText := none,
      firstDescMeta := some { contentAttr := some ("D".toList) } }
    rfl).1 (Embed.new [] ("D".toList)) rfl

/-- C7 — per-URL isolation: a fetch failure, a body-decode failure, or a
dispatch failure on one URL is logged in that URL trace, never raises
(`Except.ok`), and the remaining URLs of the message are processed
unchanged after it. -/
theorem per_url_isolation (w : World) (u : List Char) (urls : List (List Char)) :
    ((w.fetch u = FetchResult.unreachable ∨
      w.fetch u = FetchResult.bodyDecodeFailed) →
      ∃ t, handleUrl w u = Except.ok t ∧
        (Action.log (LogMsg.failedFetch u) ∈ t ∨
         Action.log (LogMsg.failedDecode u) ∈ t) ∧
        (∀ a ∈ t, isSendAction a = false) ∧
        handleUrls w (u :: urls) =
          Except.map (fun r => t ++ r) (handleUrls w urls)) ∧
    (∀ doc m, w.fetch u = FetchResult.body doc →
      parse_metadata doc = Except.ok m → w.sendOk u = false →
      ∃ t, handleUrl w u = Except.ok t ∧
        Action.log (LogMsg.failedSend u) ∈ t ∧
        handleUrls w (u :: urls) =
          Except.map (fun r => t ++ r) (handleUrls w urls)) := by
  have hcons : ∀ t, handleUrl w u = Except.ok t →
      handleUrls w (u :: urls) =
        Except.map (fun r => t ++ r) (handleUrls w urls) := by
    intro t ht
    simp only [handleUrls]
    rw [ht]
    cases hrest : handleUrls w urls <;> simp [Except.map]
  constructor
  · intro h
    rcases h with h | h
    · have ht : handleUrl w u =
          Except.ok [Action.fetch u, Action.log (LogMsg.failedFetch u)] := by
        simp [handleUrl, h]
      refine ⟨_, ht, Or.inl (by simp), ?_, hcons _ ht⟩
      intro a ha
      rcases List.mem_cons.mp ha with rfl | ha'
      · rfl
      · simp only [List.mem_singleton] at ha'
        subst ha'
        rfl
    · have ht : handleUrl w u =
          Except.ok [Action.fetch u, Action.log (LogMsg.failedDecode u)] := by
        simp [handleUrl, h]
      refine ⟨_, ht, Or.inr (by simp), ?_, hcons _ ht⟩
      intro a ha
      rcases List.mem_cons.mp ha with rfl | ha'
      · rfl
      · simp only [List.mem_singleton] at ha'
        subst ha'
        rfl
  · intro doc m hf hp hsend
    cases m with
    | some e =>
      have ht : handleUrl w u =
          Except.ok ([Action.fetch u, Action.log (LogMsg.sendingEmbed u),
            Action.sendReply e.title (embedHtml e.title e.description)] ++
            [Action.log (LogMsg.failedSend u)]) := by
        simp [handleUrl, hf, hp, hsend]
      exact ⟨_, ht, by simp, hcons _ ht⟩
    | none =>
      have ht : handleUrl w u =
          Except.ok ([Action.fetch u, Action.log (LogMsg.sendingNoMetadata u),
            Action.sendReply noMetaPlain noMetaHtml] ++
            [Action.log (LogMsg.failedSend u)]) := by
        simp [handleUrl, hf, hp, hsend]
      exact ⟨_, ht, by simp, hcons _ ht⟩

/-- Witness for C7: an unreachable first URL still lets the second URL of
the same message be processed. -/
theorem per_url_isolation_witness :
    ∃ t, handleUrl
        { roomJoined := true, clientUserId := 0,
          fetch := fun _ => FetchResult.unreachable, sendOk := fun _ => true }
        ("http://a.bc".toList) = Except.ok t ∧
      (Action.log (LogMsg.failedFetch ("http://a.bc".toList)) ∈ t ∨
       Action.log (LogMsg.failedDecode ("http://a.bc".toList)) ∈ t) ∧
      (∀ a ∈ t, isSendAction a = false) ∧
      handleUrls
          { roomJoined := true, clientUserId := 0,
            fetch := fun _ => FetchResult.unreachable, sendOk := fun _ => true }
          (("http://a.bc".toList) :: [("http://c.de".toList)]) =
        Except.map (fun r => t ++ r)
          (handleUrls
            { roomJoined := true, clientUserId := 0,
              fetch := fun _ => FetchResult.unreachable, sendOk := fun _ => true }
            [("http://c.de".toList)]) :=
  (per_url_isolation _ _ _).1 (Or.inl rfl)

/-- C8 — the two fetch failure conditions are distinct variants of the
fetch outcome (`send()` failing versus `text()` failing), and the
orchestrator logs a distinct message for each, so the failing stage is
always identifiable. -/
theorem fetch_failure_stages (w : World) (url : List Char) :
    (w.fetch url = FetchResult.unreachable →
      handleUrl w url =
        Except.ok [Action.fetch url, Action.log (LogMsg.failedFetch url)]) ∧
    (w.fetch url = FetchResult.bodyDecodeFailed →
      handleUrl w url =
        Except.ok [Action.fetch url, Action.log (LogMsg.failedDecode url)]) ∧
    FetchResult.unreachable ≠ FetchResult.bodyDecodeFailed ∧
    LogMsg.failedFetch url ≠ LogMsg.failedDecode url := by
  refine ⟨?_, ?_, ?_, ?_⟩
  · intro h
    unfold handleUrl
    rw [h]
  · intro h
    unfold handleUrl
    rw [h]
  · intro h
    exact FetchResult.noConfusion h
  · intro h
    exact LogMsg.noConfusion h

/-- Witness for C8: an unreachable URL produces the fetch-stage log. -/
theorem fetch_failure_stages_witness :
    handleUrl
      { roomJoined := true, clientUserId := 0,
        fetch := fun _ => FetchResult.unreachable, sendOk := fun _ => true }
      ("http://a.bc".toList) =
      Except.ok [Action.fetch ("http://a.bc".toList),
        Action.log (LogMsg.failedFetch ("http://a.bc".toList))] :=
  (fetch_failure_stages _ _).1 rfl

/-- C9 counterexample — the claim states that every returned URL contains
no whitespace characters.  The host character class of the pattern,
`00A1`–`FFFF`, contains non-ASCII Unicode whitespace such as U+2002 (EN
SPACE), which the pattern's own `\s` class also counts as whitespace.  On
the message `http://<U+2002>x.ab` the extractor returns the whole message
as a URL, and that URL contains the whitespace character U+2002. -/
theorem get_urls_whitespace_cex :
    ("http://\u2002x.ab".toList ∈
      get_urls_from_message ("http://\u2002x.ab".toList)) ∧
    '\u2002' ∈ "http://\u2002x.ab".toList ∧
    rustIsSpace '\u2002' = true := by
  refine ⟨by decide, by decide, by decide⟩

/-- C9 (amended) — every string returned by `get_urls_from_message` is a
contiguous substring of the input and begins with `http://` or
`https://`; it contains no ASCII whitespace, though it may contain
non-ASCII Unicode whitespace admitted by the `00A1`–`FFFF` host class
(see the counterexample). -/
theorem get_urls_match_shape (msg u : List Char)
    (h : u ∈ get_urls_from_message msg) :
    u <:+: msg ∧
    ("http://".toList <+: u ∨ "https://".toList <+: u) ∧
    ∀ c ∈ u, asciiWs c = false := by
  obtain ⟨hm, -⟩ := mem_get_urls h
  obtain ⟨cs', n, hs, hmt, rfl⟩ := mem_findMatches hm
  refine ⟨?_, ?_, ?_⟩
  · exact List.infix_iff_prefix_suffix.mpr ⟨cs', take_prefix_self n cs', hs⟩
  · rcases matchAt_scheme hmt with ⟨hp, hn⟩ | ⟨hp, hn⟩
    · exact Or.inl (prefix_of_take hp
        (le_trans (by decide : ("http://".toList).length ≤ 7) hn))
    · exact Or.inr (prefix_of_take hp
        (le_trans (by decide : ("https://".toList).length ≤ 8) hn))
  · intro c hc
    exact asciiWs_false_of_okChar (matchAt_chars hmt c hc)

/-- Witness for C9 (amended): a URL inside a message. -/
theorem get_urls_match_shape_witness :
    ("http://a.bc".toList <:+: "see http://a.bc ok".toList) ∧
    ("http://".toList <+: "http://a.bc".toList ∨
     "https://".toList <+: "http://a.bc".toList) ∧
    ∀ c ∈ "http://a.bc".toList, asciiWs c = false :=
  get_urls_match_shape ("see http://a.bc ok".toList) ("http://a.bc".toList)
    (by decide)

/-- C10 — when metadata is present the dispatched reply has the title
alone as its plain-text body, while the description appears only in the
HTML body, inside a blockquote together with the title (the exact
`format!` literal of the source, indentation included). -/
theorem rich_reply_body_layout (w : World) (url : List Char) (doc : HtmlDoc)
    (e : Embed) (hf : w.fetch url = FetchResult.body doc)
    (hp : parse_metadata doc = Except.ok (some e)) :
    Except.map (List.filter isSendAction) (handleUrl w url) =
      Except.ok [Action.sendReply e.title
        (("<blockquote>\n                                <h4>".toList) ++
          e.title ++
          ("</h4>\n                                <p>".toList) ++
          e.description ++
          ("</p>\n                                </blockquote>".toList))] := by
  by_cases hs : w.sendOk url = true <;>
    simp [handleUrl, hf, hp, hs, isSendAction, Except.map, embedHtml]

/-- Witness for C10: a document with title and description. -/
theorem rich_reply_body_layout_witness :
    Except.map (List.filter isSendAction)
      (handleUrl
        { roomJoined := true, clientUserId := 0,
          fetch := fun _ => FetchResult.body
            { firstTitleText := some ("T".toList),
              firstDescMeta := some { contentAttr := some ("D".toList) } },
          sendOk := fun _ => true }
        ("http://a.bc".toList)) =
      Except.ok [Action.sendReply (Embed.new ("T".toList) ("D".toList)).title
        (("<blockquote>\n                                <h4>".toList) ++
          (Embed.new ("T".toList) ("D".toList)).title ++
          ("</h4>\n                                <p>".toList) ++
          (Embed.new ("T".toList) ("D".toList)).description ++
          ("</p>\n                                </blockquote>".toList))] :=
  rich_reply_body_layout _ ("http://a.bc".toList)
    { firstTitleText := some ("T".toList),
      firstDescMeta := some { contentAttr := some ("D".toList) } }
    (Embed.new ("T".toList) ("D".toList)) rfl rfl

end Frogbot
